import Mathlib

/-!
Verification of the SRU Cyberspace security layer (`security.py`,
`secure_server.py`) against its natural-language specification.

Python strings are modelled as `List Char` (ASCII fragment: the repository
only manipulates ASCII text).  Python `time.time()` values are modelled as
integers (`Int`); the code only compares clock differences, so the model is
faithful for the claims at hand.  Scanning functions that consume more than
one character per step (`str.replace`, `re.sub`) are written with an explicit
fuel argument so that every definition computes inside the kernel; the fuel
passed by the public wrappers (`length + 1`) always suffices because each
step consumes at least one character.
-/

/-- Characters written by code point, to keep source text simple:
the apostrophe. -/
def aposC : Char := Char.ofNat 39

/-- Python `str.replace(old, new)` with fuel: scan left to right; whenever
`old` is a prefix of the remaining text, emit `new` and continue after the
replaced occurrence (the replacement text is not rescanned). -/
def pyReplaceF : Nat → List Char → List Char → List Char → List Char
  | 0, s, _, _ => s
  | _ + 1, [], _, _ => []
  | f + 1, c :: s, old, new =>
    if !old.isEmpty && old.isPrefixOf (c :: s) then
      new ++ pyReplaceF f ((c :: s).drop old.length) old new
    else
      c :: pyReplaceF f s old new

/-- Python `str.replace(old, new)` (always called with nonempty `old` in the
source). -/
def pyReplace (s old new : List Char) : List Char :=
  pyReplaceF (s.length + 1) s old new

/-- Does `p` occur as a contiguous substring of `s`?  (Python `p in s`,
`re.search` for a literal pattern.) -/
def containsSubstr : List Char → List Char → Bool
  | s, p =>
    if p.isPrefixOf s then true
    else
      match s with
      | [] => false
      | _ :: t => containsSubstr t p

/-- Python `str.lower()` restricted to ASCII (the repository's data). -/
def pyToLower (c : Char) : Char :=
  if 65 ≤ c.toNat && c.toNat ≤ 90 then Char.ofNat (c.toNat + 32) else c

/-- Python `str.lower()` on a whole string. -/
def pyLower (s : List Char) : List Char := s.map pyToLower

/-- Python `\s` for the ASCII fragment: space, tab, newline, carriage
return, vertical tab, form feed. -/
def isPySpace (c : Char) : Bool :=
  c == ' ' || c == '\t' || c == '\n' || c == '\r' || c.toNat == 11 || c.toNat == 12

/-- Python `str.strip()`: drop leading and trailing whitespace. -/
def pyStrip (s : List Char) : List Char :=
  (((s.dropWhile isPySpace).reverse).dropWhile isPySpace).reverse

/-- ASCII letter (`[a-zA-Z]`). -/
def isAlphaAsc (c : Char) : Bool :=
  (97 ≤ c.toNat && c.toNat ≤ 122) || (65 ≤ c.toNat && c.toNat ≤ 90)

/-- ASCII digit (`[0-9]`). -/
def isDigitAsc (c : Char) : Bool :=
  48 ≤ c.toNat && c.toNat ≤ 57

/-- Python regex `\w` (ASCII fragment): letters, digits, underscore. -/
def isWordChar (c : Char) : Bool :=
  isAlphaAsc c || isDigitAsc c || c == '_'

/-- Case-insensitive prefix test (`re` with `re.IGNORECASE`, literal text). -/
def ciIsPrefixOf (p s : List Char) : Bool :=
  (p.map pyToLower).isPrefixOf (s.map pyToLower)

/-- Case-insensitive substring test: `re.search(pat, s, re.IGNORECASE)` for a
literal lowercase pattern `pat`. -/
def ciContainsSubstr (s p : List Char) : Bool :=
  containsSubstr (s.map pyToLower) p

/-- CPython `html.escape(s, quote=True)`: the five successive replacements,
in source order (`&`, `<`, `>`, `"`, then the apostrophe). -/
def pyHtmlEscape (s : List Char) : List Char :=
  pyReplace
    (pyReplace
      (pyReplace
        (pyReplace
          (pyReplace s ['&'] ("&amp;".toList))
          ['<'] ("&lt;".toList))
        ['>'] ("&gt;".toList))
      ['"'] ("&quot;".toList))
    [aposC] ("&#x27;".toList)

/-- Match of the regex `on\w+\s*=` (flags `re.IGNORECASE`) at the head of the
list: literal `on` (case-insensitive), then a nonempty greedy run of word
characters, a greedy run of whitespace, and `=`.  Because `\w`, `\s` and `=`
are pairwise disjoint character sets, the greedy match is deterministic and
no backtracking case arises.  Returns the length of the match. -/
def matchEvent (s : List Char) : Option Nat :=
  match s with
  | c1 :: c2 :: rest =>
    if pyToLower c1 == 'o' && pyToLower c2 == 'n' then
      let w := rest.takeWhile isWordChar
      if w.isEmpty then none
      else
        let afterW := rest.dropWhile isWordChar
        let sp := afterW.takeWhile isPySpace
        match afterW.dropWhile isPySpace with
        | '=' :: _ => some (2 + w.length + sp.length + 1)
        | _ => none
    else none
  | _ => none

/-- `re.sub(r'on\w+\s*=', '', s, flags=re.IGNORECASE)` with fuel: scan left
to right, delete each non-overlapping leftmost match, continue after it. -/
def eventSubF : Nat → List Char → List Char
  | 0, s => s
  | _ + 1, [] => []
  | f + 1, c :: t =>
    match matchEvent (c :: t) with
    | some k => eventSubF f ((c :: t).drop k)
    | none => c :: eventSubF f t

/-- `re.sub(r'on\w+\s*=', '', s, flags=re.IGNORECASE)`. -/
def eventSub (s : List Char) : List Char := eventSubF (s.length + 1) s

/-- Is there a match of `on\w+\s*=` anywhere in `s`? -/
def hasEventMatch : List Char → Bool
  | [] => false
  | c :: t => (matchEvent (c :: t)).isSome || hasEventMatch t

/-- Index of the first case-insensitive occurrence of the literal `pat`
in `s`. -/
def findSubCI : List Char → List Char → Option Nat
  | s, pat =>
    if ciIsPrefixOf pat s then some 0
    else
      match s with
      | [] => none
      | _ :: t => (findSubCI t pat).map (· + 1)

/-- Match of `<script[^>]*>.*?</script>` (flags `re.IGNORECASE | re.DOTALL`)
at the head of the list: literal `<script`, a greedy run of non-`>`
characters followed by `>` (deterministic since `[^>]` and `>` are
disjoint), then the lazy `.*?` reaches exactly to the first following
`</script>`.  Returns the length of the match. -/
def matchScript (s : List Char) : Option Nat :=
  if ciIsPrefixOf ("<script".toList) s then
    let rest := s.drop 7
    let body := rest.takeWhile (fun c => c != '>')
    match rest.dropWhile (fun c => c != '>') with
    | '>' :: rest2 =>
      match findSubCI rest2 ("</script>".toList) with
      | some n => some (7 + body.length + 1 + n + 9)
      | none => none
    | _ => none
  else none

/-- `re.sub(script_pattern, '', s)` with fuel. -/
def scriptSubF : Nat → List Char → List Char
  | 0, s => s
  | _ + 1, [] => []
  | f + 1, c :: t =>
    match matchScript (c :: t) with
    | some k => scriptSubF f ((c :: t).drop k)
    | none => c :: scriptSubF f t

/-- `re.sub(r'<script[^>]*>.*?</script>', '', s, re.IGNORECASE | re.DOTALL)`. -/
def scriptSub (s : List Char) : List Char := scriptSubF (s.length + 1) s

/-- Is there a match of the script pattern anywhere in `s`? -/
def hasScriptMatch : List Char → Bool
  | [] => false
  | c :: t => (matchScript (c :: t)).isSome || hasScriptMatch t

/-- The `dangerous_chars` list of `SecurityManager.sanitize_input`, in source
order. -/
def dangerousItems : List (List Char) :=
  [['<'], ['>'], ['"'], [aposC], ['&'],
   "javascript:".toList, "vbscript:".toList, "onload".toList, "onerror".toList]

/-- The successive `str.replace(item, '')` calls of `sanitize_input`. -/
def removeDangerous (s : List Char) : List Char :=
  dangerousItems.foldl (fun acc p => pyReplace acc p []) s

/-- `SecurityManager.sanitize_input`: empty guard, dangerous-substring
removal, HTML escaping, script-tag and event-handler pattern removal,
strip. -/
def sanitize_input (s : List Char) : List Char :=
  if s.isEmpty then []
  else pyStrip (eventSub (scriptSub (pyHtmlEscape (removeDangerous s))))

example : sanitize_input ("oonloadnload".toList) = "onload".toList := by decide
example : sanitize_input ("onload".toList) = [] := by decide
example : sanitize_input ("hello".toList) = "hello".toList := by decide

/-- Character class `[a-zA-Z\s\'-]` of the name regex. -/
def nameChar (c : Char) : Bool :=
  isAlphaAsc c || isPySpace c || c == '-' || c == aposC

/-- The regex `^[a-zA-Z\s\'-]+$` under `re.match`: one or more characters of
the class, anchored at both ends.  (`$` also accepts one trailing newline,
but `\n` is already in the class, so the language is exactly the nonempty
all-in-class strings.) -/
def nameRegexMatch (s : List Char) : Bool :=
  !s.isEmpty && s.all nameChar

/-- `SecurityManager.validate_name`: empty guard, regex, length 2 to 50. -/
def validate_name (s : List Char) : Bool :=
  if s.isEmpty then false
  else if !nameRegexMatch s then false
  else if s.length < 2 || 50 < s.length then false
  else true

/-- Character class `[a-zA-Z0-9._%+-]` (local part of the email regex). -/
def localChar (c : Char) : Bool :=
  isAlphaAsc c || isDigitAsc c || c == '.' || c == '_' || c == '%' || c == '+' || c == '-'

/-- Character class `[a-zA-Z0-9.-]` (domain part of the email regex). -/
def domainChar (c : Char) : Bool :=
  isAlphaAsc c || isDigitAsc c || c == '.' || c == '-'

/-- Split at the first occurrence of `a`: `splitFirst s a = some (l, r)`
iff `s = l ++ a :: r` with `a ∉ l`. -/
def splitFirst : List Char → Char → Option (List Char × List Char)
  | [], _ => none
  | c :: t, a =>
    if c = a then some ([], t)
    else (splitFirst t a).map (fun p => (c :: p.1, p.2))

/-- Split at the last `'.'`: `some (d, t)` with `r = d ++ '.' :: t` and
`'.' ∉ t`, or `none` when `r` has no dot. -/
def splitLastDot (r : List Char) : Option (List Char × List Char) :=
  let rev := r.reverse
  let t := rev.takeWhile (fun c => c != '.')
  match rev.dropWhile (fun c => c != '.') with
  | [] => none
  | _ :: d => some (d.reverse, t.reverse)

/-- The `[a-zA-Z0-9.-]+\.[a-zA-Z]{2,}` part of the email regex.  The final
`[a-zA-Z]{2,}` is anchored at the end and contains no dot, so the `\.` of
a match is necessarily the last dot of the text; the match is therefore
equivalent to: all characters in the domain class, and splitting at the
last dot leaves a nonempty left part and at least two letters. -/
def domainPartOk (r : List Char) : Bool :=
  r.all domainChar &&
    match splitLastDot r with
    | none => false
    | some (d, t) => !d.isEmpty && 2 ≤ t.length && t.all isAlphaAsc

/-- The regex `^[a-zA-Z0-9._%+-]+@[a-zA-Z0-9.-]+\.[a-zA-Z]{2,}$` applied to
the whole string (without the trailing-newline allowance of `$`).  Neither
character class contains `@`, so the regex `@` is the first `@` of the
string. -/
def emailCore (s : List Char) : Bool :=
  match splitFirst s '@' with
  | none => false
  | some (l, r) => !l.isEmpty && l.all localChar && domainPartOk r

/-- `re.match(email_pattern, s)` as a whole-string test: Python `$` also
matches just before one trailing newline, so a match either covers the whole
string or the whole string minus a final `'\n'`. -/
def emailRegexMatch (s : List Char) : Bool :=
  emailCore s ||
    (match s.getLast? with
     | some c => c == '\n' && emailCore s.dropLast
     | none => false)

/-- The `suspicious_patterns` list of `validate_email`, in source order
(`javascript\(` and `vbscript\(` have escaped parentheses, hence are
literal text; all six are literal text). -/
def emailSuspPatterns : List (List Char) :=
  ["javascript:".toList, "vbscript:".toList, "data:".toList,
   "<script".toList, "javascript(".toList, "vbscript(".toList]

/-- `SecurityManager.validate_email`: empty guard, shape regex, then the
case-insensitive suspicious-pattern loop. -/
def validate_email (s : List Char) : Bool :=
  if s.isEmpty then false
  else if !emailRegexMatch s then false
  else if emailSuspPatterns.any (fun p => ciContainsSubstr s p) then false
  else true

example : validate_email ("user@example.com".toList) = true := by decide
example : validate_name ("a\tb".toList) = true := by decide
example : validate_name ("a1".toList) = false := by decide

/-- One stored CSRF record: `{'token': ..., 'timestamp': ...}`. -/
structure CsrfRec where
  token : List Char
  timestamp : Int
deriving DecidableEq

/-- Association-list model of a Python `dict` keyed by strings. -/
def alookup {α : Type} : List (List Char × α) → List Char → Option α
  | [], _ => none
  | (k, v) :: t, k2 => if k = k2 then some v else alookup t k2

/-- `dict[k] = v`: overwrite the entry for `k`, or append a fresh one. -/
def aset {α : Type} : List (List Char × α) → List Char → α → List (List Char × α)
  | [], k, v => [(k, v)]
  | (k1, v1) :: t, k, v =>
    if k1 = k then (k, v) :: t else (k1, v1) :: aset t k v

/-- `del dict[k]`: remove the entry for `k`. -/
def aremove {α : Type} : List (List Char × α) → List Char → List (List Char × α)
  | [], _ => []
  | (k1, v1) :: t, k =>
    if k1 = k then t else (k1, v1) :: aremove t k

/-- `SecurityManager.generate_csrf_token`.  `secrets.token_urlsafe(32)` is
nondeterministic, so the freshly drawn token is passed as the argument
`tok`; the function stores it with the current time, overwriting any
record for `sid`. -/
def generate_csrf_token (m : List (List Char × CsrfRec)) (sid tok : List Char)
    (now : Int) : List (List Char × CsrfRec) :=
  aset m sid ⟨tok, now⟩

/-- `SecurityManager.validate_csrf_token`.  The presented token is
`Option`-valued because `request.form.get('csrf_token')` may be `None`;
returns the boolean result together with the updated token store (the
expired branch executes `del self.csrf_tokens[session_id]`). -/
def validate_csrf_token (m : List (List Char × CsrfRec)) (sid : List Char)
    (tok : Option (List Char)) (now : Int) :
    Bool × List (List Char × CsrfRec) :=
  match alookup m sid with
  | none => (false, m)
  | some r =>
    if some r.token ≠ tok then (false, m)
    else if 3600 < now - r.timestamp then (false, aremove m sid)
    else (true, m)

/-- `SecurityManager.rate_limit`: look up the identity's timestamps (empty
list if absent), keep those with `now - t < window`, deny if at least
`limit` remain, otherwise record the current time and admit.  The purged
list is written back to the store in both cases, as in the source. -/
def rate_limit (now : Int) (m : List (List Char × List Int)) (ip : List Char)
    (limit : Nat) (window : Int) : Bool × List (List Char × List Int) :=
  let hist := (alookup m ip).getD []
  let purged := hist.filter (fun t => decide (now - t < window))
  if limit ≤ purged.length then (false, aset m ip purged)
  else (true, aset m ip (purged ++ [now]))

/-- The `suspicious_patterns` list of `is_suspicious_request`, in source
order, duplicates included. -/
def requestSuspPatterns : List (List Char) :=
  ["<script".toList, "javascript:".toList, "vbscript:".toList, "data:".toList,
   "<iframe".toList, "<object".toList, "<embed".toList, "<form".toList,
   "<input".toList, "<textarea".toList, "<select".toList, "<button".toList,
   "<link".toList, "<meta".toList, "<style".toList, "<base".toList,
   "<bgsound".toList, "<link".toList, "<meta".toList, "<title".toList,
   "<xmp".toList, "<plaintext".toList, "<listing".toList, "<marquee".toList,
   "<applet".toList, "<param".toList, "<embed".toList, "<object".toList,
   "<basefont".toList, "<isindex".toList, "<dir".toList, "<menu".toList,
   "<listing".toList, "<plaintext".toList, "<xmp".toList, "<nextid".toList,
   "<comment".toList, "<listing".toList, "<plaintext".toList, "<xmp".toList,
   "<nextid".toList, "<comment".toList, "<listing".toList, "<plaintext".toList,
   "<xmp".toList, "<nextid".toList, "<comment".toList]

/-- `SecurityManager.is_suspicious_request`: lowercase the serialized request
text and search for each pattern (each is literal text; the extra
`re.IGNORECASE` is absorbed by the lowering). -/
def is_suspicious_request (requestData : List Char) : Bool :=
  requestSuspPatterns.any (fun p => containsSubstr (pyLower requestData) p)

example : is_suspicious_request ("<script>alert(1)</script>".toList) = true := by decide

/-- The mutable state of the `SecurityManager` instance (`csrf_tokens`,
`rate_limit_data`, `blocked_ips`). -/
structure SecState where
  csrf_tokens : List (List Char × CsrfRec)
  rate_limit_data : List (List Char × List Int)
  blocked_ips : List (List Char)
deriving DecidableEq

/-- `set.add`: insert an identity into the blocked set. -/
def setAdd (l : List (List Char)) (x : List Char) : List (List Char) :=
  if x ∈ l then l else x :: l

/-- `SecurityManager.clean_session_data`: drop CSRF records older than
3600 s, purge per-identity rate timestamps older than 300 s, and drop
identities whose purged history is empty. -/
def clean_session_data (now : Int) (st : SecState) : SecState :=
  { st with
    csrf_tokens :=
      st.csrf_tokens.filter (fun kv => decide (now - kv.2.timestamp ≤ 3600)),
    rate_limit_data :=
      (st.rate_limit_data.map
        (fun kv => (kv.1, kv.2.filter (fun t => decide (now - t < 300))))).filter
        (fun kv => !kv.2.isEmpty) }

/-- An inbound request as the gatekeeper sees it: the client address
(`request.remote_addr`) and the serialized text `str(request)` that
`is_suspicious_request` scans. -/
structure Request where
  remote_addr : List Char
  serialized : List Char
deriving DecidableEq

/-- Terminal result of the before-request hook: `abort(code)` or fall
through to the route handler. -/
inductive GateOutcome where
  | blockResp : Nat → GateOutcome
  | proceed : GateOutcome
deriving DecidableEq

/-- The `security_checks` before-request hook of `secure_server.py`:
blacklist check (403), broad rate limit 20 per 60 s (429), suspicious-scan
with permanent blacklisting (400), then the periodic housekeeping trigger
`time.time() % 300 < 1` and fall-through.  The session-cookie bookkeeping
mutates only the per-request Flask session, not `SecurityManager` state,
and is modelled with the session identifier that `submit_form` receives. -/
def security_checks (now : Int) (st : SecState) (req : Request) :
    GateOutcome × SecState :=
  if req.remote_addr ∈ st.blocked_ips then (.blockResp 403, st)
  else
    match rate_limit now st.rate_limit_data req.remote_addr 20 60 with
    | (ok, rd) =>
      if !ok then (.blockResp 429, { st with rate_limit_data := rd })
      else if is_suspicious_request req.serialized then
        (.blockResp 400,
          { st with rate_limit_data := rd,
                    blocked_ips := setAdd st.blocked_ips req.remote_addr })
      else
        (.proceed,
          if now % 300 < 1 then
            clean_session_data now { st with rate_limit_data := rd }
          else { st with rate_limit_data := rd })

/-- The helper calls `submit_form` makes after the CSRF gate, recorded in
source order to witness which validators and sanitizers ran. -/
inductive FieldCall where
  | nameCheck : FieldCall
  | emailCheck : FieldCall
  | sanitizeCalls : FieldCall
deriving DecidableEq

/-- JSON bodies produced by `submit_form`: an `{'error': msg}` object or the
success acknowledgment built from the sanitized name and email. -/
inductive JsonBody where
  | errorMsg : String → JsonBody
  | successMsg : List Char → List Char → JsonBody
deriving DecidableEq

/-- The five accepted values of the `year` field. -/
def yearChoices : List (List Char) :=
  ["freshman".toList, "sophomore".toList, "junior".toList,
   "senior".toList, "graduate".toList]

/-- The `POST /submit-form` handler: CSRF validation (403 on failure),
stripping of the submitted fields, name/email/year validation (400 on
failure), sanitization, success response.  Returns the HTTP status and
body, the list of field-level helper calls that were made, and the CSRF
store as updated by `validate_csrf_token`. -/
def submit_form (m : List (List Char × CsrfRec)) (sid : List Char)
    (ctok : Option (List Char)) (nameF emailF yearF : List Char) (now : Int) :
    (Nat × JsonBody) × List FieldCall × List (List Char × CsrfRec) :=
  match validate_csrf_token m sid ctok now with
  | (ok, m2) =>
    if !ok then ((403, .errorMsg "Invalid request"), [], m2)
    else
      match pyStrip nameF, pyStrip emailF, pyStrip yearF with
      | nm, em, yr =>
        if !validate_name nm then
          ((400, .errorMsg "Invalid name format"), [.nameCheck], m2)
        else if !validate_email em then
          ((400, .errorMsg "Invalid email format"), [.nameCheck, .emailCheck], m2)
        else if !yearChoices.contains yr then
          ((400, .errorMsg "Invalid year selection"), [.nameCheck, .emailCheck], m2)
        else
          ((200, .successMsg (sanitize_input nm) (sanitize_input em)),
           [.nameCheck, .emailCheck, .sanitizeCalls], m2)

/-- A single quote character as a one-character string, for assembling
header values. -/
def sqS : String := String.mk [aposC]

/-- The Content-Security-Policy string assembled in `add_security_headers`
(single quotes written via `sqS`). -/
def cspString : String :=
  "default-src " ++ sqS ++ "self" ++ sqS ++ "; " ++
  "script-src " ++ sqS ++ "self" ++ sqS ++ " " ++ sqS ++ "unsafe-inline" ++ sqS ++
    " https://cdnjs.cloudflare.com https://fonts.googleapis.com; " ++
  "style-src " ++ sqS ++ "self" ++ sqS ++ " " ++ sqS ++ "unsafe-inline" ++ sqS ++
    " https://cdnjs.cloudflare.com https://fonts.googleapis.com; " ++
  "font-src " ++ sqS ++ "self" ++ sqS ++ " https://cdnjs.cloudflare.com https://fonts.gstatic.com; " ++
  "img-src " ++ sqS ++ "self" ++ sqS ++ " data: https:; " ++
  "connect-src " ++ sqS ++ "self" ++ sqS ++ "; " ++
  "frame-src " ++ sqS ++ "self" ++ sqS ++ " https://calendar.google.com; " ++
  "object-src " ++ sqS ++ "none" ++ sqS ++ "; " ++
  "base-uri " ++ sqS ++ "self" ++ sqS ++ "; " ++
  "form-action " ++ sqS ++ "self" ++ sqS ++ "; " ++
  "frame-ancestors " ++ sqS ++ "none" ++ sqS ++ ";"

/-- An HTTP response: status code and header map. -/
structure HResponse where
  status : Nat
  headers : List (String × String)
deriving DecidableEq

/-- `response.headers[k] = v`: overwrite the header `k`. -/
def setHeader (hs : List (String × String)) (k v : String) :
    List (String × String) :=
  (k, v) :: hs.filter (fun kv => kv.1 ≠ k)

/-- Read a header value. -/
def getHeader (hs : List (String × String)) (k : String) : Option String :=
  (hs.find? (fun kv => kv.1 == k)).map (fun kv => kv.2)

/-- The `add_security_headers` after-request hook of `secure_server.py`,
applied by Flask to every outgoing response: the five fixed security
headers plus the Content-Security-Policy, in source order. -/
def add_security_headers (r : HResponse) : HResponse :=
  { r with headers := setHeader (setHeader (setHeader (setHeader (setHeader (setHeader r.headers "X-Content-Type-Options" "nosniff") "X-Frame-Options" "DENY") "X-XSS-Protection" "1; mode=block") "Referrer-Policy" "strict-origin-when-cross-origin") "Permissions-Policy" "geolocation=(), microphone=(), camera=()") "Content-Security-Policy" cspString }

theorem containsSubstr_nil (p : List Char) : containsSubstr [] p = p.isPrefixOf [] := by
  unfold containsSubstr
  cases h : p.isPrefixOf [] <;> simp [h]

theorem containsSubstr_cons (c : Char) (t p : List Char) :
    containsSubstr (c :: t) p = (p.isPrefixOf (c :: t) || containsSubstr t p) := by
  rw [containsSubstr]
  cases h : p.isPrefixOf (c :: t)
  · rw [if_neg (by simp [h]), Bool.false_or]
  · rw [if_pos (by simp [h]), Bool.true_or]

theorem mem_of_containsSubstr {s p : List Char} (h : containsSubstr s p = true) :
    ∀ c ∈ p, c ∈ s := by
  induction s with
  | nil =>
    rw [containsSubstr_nil] at h
    have hp : p <+: ([] : List Char) := List.isPrefixOf_iff_prefix.mp h
    intro c hc
    exact absurd (hp.subset hc) (List.not_mem_nil c)
  | cons a t ih =>
    rw [containsSubstr_cons] at h
    simp only [Bool.or_eq_true] at h
    intro c hc
    rcases h with h | h
    · exact (List.isPrefixOf_iff_prefix.mp h).subset hc
    · exact List.mem_cons_of_mem a (ih h c hc)

theorem containsSubstr_singleton_false {s : List Char} {a : Char} (h : a ∉ s) :
    containsSubstr s [a] = false := by
  cases hc : containsSubstr s [a]
  · rfl
  · exact absurd (mem_of_containsSubstr hc a (List.mem_singleton.mpr rfl)) h

theorem mem_of_mem_pyReplaceF {c : Char} :
    ∀ (f : Nat) (s old : List Char), c ∈ pyReplaceF f s old [] → c ∈ s := by
  intro f
  induction f with
  | zero =>
    intro s old h
    simpa [pyReplaceF] using h
  | succ f ih =>
    intro s old h
    match s with
    | [] => simp [pyReplaceF] at h
    | a :: t =>
      rw [pyReplaceF] at h
      split at h
      · have := ih _ _ (by simpa using h)
        exact List.mem_of_mem_drop this
      · rcases List.mem_cons.mp h with h | h
        · exact h ▸ List.mem_cons_self a t
        · exact List.mem_cons_of_mem a (ih _ _ h)

theorem mem_of_mem_pyReplace {c : Char} {s old : List Char}
    (h : c ∈ pyReplace s old []) : c ∈ s :=
  mem_of_mem_pyReplaceF _ _ _ h

theorem pyReplaceF_eq_self {old new : List Char} :
    ∀ (f : Nat) (s : List Char), containsSubstr s old = false → pyReplaceF f s old new = s := by
  intro f
  induction f with
  | zero => intro s _; simp [pyReplaceF]
  | succ f ih =>
    intro s h
    match s with
    | [] => simp [pyReplaceF]
    | a :: t =>
      rw [containsSubstr_cons] at h
      simp only [Bool.or_eq_false_iff] at h
      rw [pyReplaceF]
      rw [if_neg (by simp [h.1])]
      rw [ih t h.2]

theorem pyReplace_eq_self {s old new : List Char} (h : containsSubstr s old = false) :
    pyReplace s old new = s :=
  pyReplaceF_eq_self _ _ h

theorem single_not_mem_pyReplaceF (a : Char) :
    ∀ (f : Nat) (s : List Char), s.length < f → a ∉ pyReplaceF f s [a] [] := by
  intro f
  induction f with
  | zero => intro s h; omega
  | succ f ih =>
    intro s h
    match s with
    | [] => simp [pyReplaceF]
    | b :: t =>
      rw [pyReplaceF]
      split
      · next hcond =>
        simp only [List.drop_succ_cons, List.drop_zero, List.nil_append]
        exact ih t (by simpa using Nat.lt_of_succ_lt_succ h)
      · next hcond =>
        intro hmem
        rcases List.mem_cons.mp hmem with h1 | h1
        · apply hcond
          subst h1
          simp [List.isPrefixOf]
        · exact ih t (by simpa using Nat.lt_of_succ_lt_succ h) h1

theorem single_not_mem_pyReplace (a : Char) (s : List Char) :
    a ∉ pyReplace s [a] [] :=
  single_not_mem_pyReplaceF a _ s (Nat.lt_succ_self _)

theorem not_mem_foldl_replace (a : Char) (items : List (List Char)) :
    ∀ s0 : List Char, a ∉ s0 →
      a ∉ items.foldl (fun acc p => pyReplace acc p []) s0 := by
  induction items with
  | nil => intro s0 h0; exact h0
  | cons p t ih =>
    intro s0 h0
    rw [List.foldl_cons]
    exact ih _ (fun hmem => h0 (mem_of_mem_pyReplace hmem))

theorem foldl_replace_eq_self (items : List (List Char)) (s : List Char)
    (h : ∀ p ∈ items, containsSubstr s p = false) :
    items.foldl (fun acc p => pyReplace acc p []) s = s := by
  induction items with
  | nil => rfl
  | cons p t ih =>
    rw [List.foldl_cons, pyReplace_eq_self (h p (List.mem_cons_self p t))]
    exact ih fun q hq => h q (List.mem_cons_of_mem p hq)

theorem mem_of_mem_eventSubF {c : Char} :
    ∀ (f : Nat) (s : List Char), c ∈ eventSubF f s → c ∈ s := by
  intro f
  induction f with
  | zero => intro s h; simpa [eventSubF] using h
  | succ f ih =>
    intro s h
    match s with
    | [] => simp [eventSubF] at h
    | a :: t =>
      rw [eventSubF] at h
      split at h
      · exact List.mem_of_mem_drop (ih _ h)
      · rcases List.mem_cons.mp h with h1 | h1
        · exact h1 ▸ List.mem_cons_self a t
        · exact List.mem_cons_of_mem a (ih _ h1)

theorem mem_of_mem_scriptSubF {c : Char} :
    ∀ (f : Nat) (s : List Char), c ∈ scriptSubF f s → c ∈ s := by
  intro f
  induction f with
  | zero => intro s h; simpa [scriptSubF] using h
  | succ f ih =>
    intro s h
    match s with
    | [] => simp [scriptSubF] at h
    | a :: t =>
      rw [scriptSubF] at h
      split at h
      · exact List.mem_of_mem_drop (ih _ h)
      · rcases List.mem_cons.mp h with h1 | h1
        · exact h1 ▸ List.mem_cons_self a t
        · exact List.mem_cons_of_mem a (ih _ h1)

theorem eventSubF_eq_self :
    ∀ (f : Nat) (s : List Char), hasEventMatch s = false → eventSubF f s = s := by
  intro f
  induction f with
  | zero => intro s _; simp [eventSubF]
  | succ f ih =>
    intro s h
    match s with
    | [] => simp [eventSubF]
    | a :: t =>
      rw [hasEventMatch] at h
      simp only [Bool.or_eq_false_iff] at h
      have hnone : matchEvent (a :: t) = none := by
        cases hm : matchEvent (a :: t)
        · rfl
        · rw [hm] at h; simp at h
      rw [eventSubF, hnone]
      show a :: eventSubF f t = a :: t
      rw [ih t h.2]

theorem scriptSubF_eq_self :
    ∀ (f : Nat) (s : List Char), hasScriptMatch s = false → scriptSubF f s = s := by
  intro f
  induction f with
  | zero => intro s _; simp [scriptSubF]
  | succ f ih =>
    intro s h
    match s with
    | [] => simp [scriptSubF]
    | a :: t =>
      rw [hasScriptMatch] at h
      simp only [Bool.or_eq_false_iff] at h
      have hnone : matchScript (a :: t) = none := by
        cases hm : matchScript (a :: t)
        · rfl
        · rw [hm] at h; simp at h
      rw [scriptSubF, hnone]
      show a :: scriptSubF f t = a :: t
      rw [ih t h.2]

theorem mem_of_mem_pyStrip {c : Char} {s : List Char} (h : c ∈ pyStrip s) : c ∈ s := by
  unfold pyStrip at h
  rw [List.mem_reverse] at h
  have h2 := (List.dropWhile_sublist isPySpace).subset h
  rw [List.mem_reverse] at h2
  exact (List.dropWhile_sublist isPySpace).subset h2

theorem dropWhile_eq_self_of_head_fails {p : Char → Bool} {l : List Char}
    (h : ∀ c r, l = c :: r → p c = false) : l.dropWhile p = l := by
  match l with
  | [] => rfl
  | a :: t => rw [List.dropWhile_cons, if_neg (by simp [h a t rfl])]

theorem dropWhile_head?_fails {p : Char → Bool} {l : List Char} {c : Char}
    (h : (l.dropWhile p).head? = some c) : p c = false := by
  have hd := List.head?_dropWhile_not p l
  rw [h] at hd
  simpa using hd

theorem pyStrip_idempotent (s : List Char) : pyStrip (pyStrip s) = pyStrip s := by
  unfold pyStrip
  set a := s.dropWhile isPySpace with ha
  set b := a.reverse.dropWhile isPySpace with hb
  have hrev : b.reverse.dropWhile isPySpace = b.reverse := by
    apply dropWhile_eq_self_of_head_fails
    intro c r hcr
    have hhead : b.reverse.head? = some c := by rw [hcr]; rfl
    rw [List.head?_reverse] at hhead
    obtain ⟨pre, hpre⟩ := List.dropWhile_suffix (l := a.reverse) isPySpace
    have hlast : a.reverse.getLast? = some c := by
      rw [← hpre, List.getLast?_append, hhead]
      rfl
    rw [List.getLast?_reverse] at hlast
    rw [ha] at hlast
    exact dropWhile_head?_fails hlast
  rw [hrev, List.reverse_reverse]
  have hb2 : b.dropWhile isPySpace = b := by
    apply dropWhile_eq_self_of_head_fails
    intro c r hcr
    rw [hb] at hcr
    have : ((a.reverse.dropWhile isPySpace).head?) = some c := by rw [hcr]; rfl
    exact dropWhile_head?_fails this
  rw [hb2]

theorem containsSubstr_singleton_true {s : List Char} {a : Char} (h : a ∈ s) :
    containsSubstr s [a] = true := by
  induction s with
  | nil => exact absurd h (List.not_mem_nil a)
  | cons b t ih =>
    rw [containsSubstr_cons]
    rcases List.mem_cons.mp h with h1 | h1
    · subst h1
      simp [List.isPrefixOf]
    · rw [ih h1, Bool.or_true]

theorem not_mem_of_containsSubstr_false {s : List Char} {a : Char}
    (h : containsSubstr s [a] = false) : a ∉ s := by
  intro hmem
  rw [containsSubstr_singleton_true hmem] at h
  simp at h

theorem pyHtmlEscape_eq_self {s : List Char}
    (h1 : '&' ∉ s) (h2 : '<' ∉ s) (h3 : '>' ∉ s) (h4 : '"' ∉ s) (h5 : aposC ∉ s) :
    pyHtmlEscape s = s := by
  unfold pyHtmlEscape
  rw [pyReplace_eq_self (containsSubstr_singleton_false h1),
    pyReplace_eq_self (containsSubstr_singleton_false h2),
    pyReplace_eq_self (containsSubstr_singleton_false h3),
    pyReplace_eq_self (containsSubstr_singleton_false h4),
    pyReplace_eq_self (containsSubstr_singleton_false h5)]

theorem removeDangerous_no_specials (s : List Char) :
    '<' ∉ removeDangerous s ∧ '>' ∉ removeDangerous s ∧ '"' ∉ removeDangerous s ∧
      aposC ∉ removeDangerous s ∧ '&' ∉ removeDangerous s := by
  refine ⟨?_, ?_, ?_, ?_, ?_⟩
  · have e : removeDangerous s =
        List.foldl (fun acc p => pyReplace acc p []) (pyReplace s ['<'] [])
          [['>'], ['"'], [aposC], ['&'], "javascript:".toList, "vbscript:".toList,
           "onload".toList, "onerror".toList] := rfl
    rw [e]
    exact not_mem_foldl_replace _ _ _ (single_not_mem_pyReplace _ _)
  · have e : removeDangerous s =
        List.foldl (fun acc p => pyReplace acc p [])
          (pyReplace (pyReplace s ['<'] []) ['>'] [])
          [['"'], [aposC], ['&'], "javascript:".toList, "vbscript:".toList,
           "onload".toList, "onerror".toList] := rfl
    rw [e]
    exact not_mem_foldl_replace _ _ _ (single_not_mem_pyReplace _ _)
  · have e : removeDangerous s =
        List.foldl (fun acc p => pyReplace acc p [])
          (pyReplace (pyReplace (pyReplace s ['<'] []) ['>'] []) ['"'] [])
          [[aposC], ['&'], "javascript:".toList, "vbscript:".toList,
           "onload".toList, "onerror".toList] := rfl
    rw [e]
    exact not_mem_foldl_replace _ _ _ (single_not_mem_pyReplace _ _)
  · have e : removeDangerous s =
        List.foldl (fun acc p => pyReplace acc p [])
          (pyReplace (pyReplace (pyReplace (pyReplace s ['<'] []) ['>'] []) ['"'] [])
            [aposC] [])
          [['&'], "javascript:".toList, "vbscript:".toList,
           "onload".toList, "onerror".toList] := rfl
    rw [e]
    exact not_mem_foldl_replace _ _ _ (single_not_mem_pyReplace _ _)
  · have e : removeDangerous s =
        List.foldl (fun acc p => pyReplace acc p [])
          (pyReplace
            (pyReplace (pyReplace (pyReplace (pyReplace s ['<'] []) ['>'] []) ['"'] [])
              [aposC] [])
            ['&'] [])
          ["javascript:".toList, "vbscript:".toList,
           "onload".toList, "onerror".toList] := rfl
    rw [e]
    exact not_mem_foldl_replace _ _ _ (single_not_mem_pyReplace _ _)

/-- C10: every string returned by `sanitize_input` is free of the five
special characters `<`, `>`, `"`, the apostrophe, and `&`; consequently the
`html.escape` step is the identity on the string it receives (the output of
the dangerous-substring removal), and no sanitizer output can contain a
script-tag block or any angle-bracketed HTML tag (it contains no `<`
at all, in particular no `<script` substring). -/
theorem sanitize_input_output_no_specials (s : List Char) :
    ('<' ∉ sanitize_input s ∧ '>' ∉ sanitize_input s ∧ '"' ∉ sanitize_input s ∧
      aposC ∉ sanitize_input s ∧ '&' ∉ sanitize_input s) ∧
    pyHtmlEscape (removeDangerous s) = removeDangerous s ∧
    containsSubstr (sanitize_input s) ("<script".toList) = false := by
  obtain ⟨hlt, hgt, hq, hap, ham⟩ := removeDangerous_no_specials s
  have hesc : pyHtmlEscape (removeDangerous s) = removeDangerous s :=
    pyHtmlEscape_eq_self ham hlt hgt hq hap
  have hpipe : ∀ c, c ∈ sanitize_input s → c ∈ removeDangerous s := by
    intro c hc
    unfold sanitize_input at hc
    by_cases hs : s.isEmpty
    · rw [if_pos hs] at hc
      exact absurd hc (List.not_mem_nil c)
    · rw [if_neg hs, hesc] at hc
      exact mem_of_mem_scriptSubF _ _ (mem_of_mem_eventSubF _ _ (mem_of_mem_pyStrip hc))
  have hscr : containsSubstr (sanitize_input s) ("<script".toList) = false := by
    cases hcs : containsSubstr (sanitize_input s) ("<script".toList)
    · rfl
    · have hm := mem_of_containsSubstr hcs '<' (by decide)
      exact absurd (hpipe _ hm) hlt
  exact ⟨⟨fun h => hlt (hpipe _ h), fun h => hgt (hpipe _ h), fun h => hq (hpipe _ h),
    fun h => hap (hpipe _ h), fun h => ham (hpipe _ h)⟩, hesc, hscr⟩

/-- C10 (witness instance): the guarantees evaluated on a concrete input. -/
theorem sanitize_input_output_no_specials_witness :
    ('<' ∉ sanitize_input ("<b>hi</b>".toList) ∧
      '>' ∉ sanitize_input ("<b>hi</b>".toList) ∧
      '"' ∉ sanitize_input ("<b>hi</b>".toList) ∧
      aposC ∉ sanitize_input ("<b>hi</b>".toList) ∧
      '&' ∉ sanitize_input ("<b>hi</b>".toList)) ∧
    pyHtmlEscape (removeDangerous ("<b>hi</b>".toList)) =
      removeDangerous ("<b>hi</b>".toList) ∧
    containsSubstr (sanitize_input ("<b>hi</b>".toList)) ("<script".toList) = false :=
  sanitize_input_output_no_specials ("<b>hi</b>".toList)

/-- C2 (counterexample): `sanitize_input` is not idempotent.  Removing the
substring `onload` from `oonloadnload` splices the surrounding text into a
fresh `onload`, which a second pass removes: the first pass returns
`onload`, the second returns the empty string. -/
theorem sanitize_input_not_idempotent :
    sanitize_input (sanitize_input ("oonloadnload".toList)) ≠
      sanitize_input ("oonloadnload".toList) := by decide

/-- A sanitizer output is clean when it contains no dangerous substring, no
event-handler pattern match, and no script-tag pattern match. -/
def sanitizedClean (y : List Char) : Bool :=
  dangerousItems.all (fun p => !containsSubstr y p) &&
    !hasEventMatch y && !hasScriptMatch y

/-- C2 (amended): `sanitize_input` is idempotent on every input whose
sanitized output is clean, i.e. contains no occurrence of a dangerous
substring and no match of the event-handler or script-tag patterns.  (In
general idempotence fails: a removal can splice surrounding text into a
fresh dangerous substring, as in the counterexample.) -/
theorem sanitize_input_idempotent_on_clean (x : List Char)
    (h : sanitizedClean (sanitize_input x) = true) :
    sanitize_input (sanitize_input x) = sanitize_input x := by
  set y := sanitize_input x with hy
  simp only [sanitizedClean, Bool.and_eq_true, List.all_eq_true,
    Bool.not_eq_true'] at h
  obtain ⟨⟨hall, hev⟩, hscr⟩ := h
  have hstrip : pyStrip y = y := by
    rw [hy]
    unfold sanitize_input
    by_cases hs : x.isEmpty
    · rw [if_pos hs]; rfl
    · rw [if_neg hs]; exact pyStrip_idempotent _
  cases hyc : y with
  | nil => rfl
  | cons a t =>
    rw [← hyc]
    unfold sanitize_input
    rw [if_neg (by rw [hyc]; simp)]
    have hrem : removeDangerous y = y := foldl_replace_eq_self _ _ hall
    rw [hrem]
    have hlt : '<' ∉ y := not_mem_of_containsSubstr_false (hall _ (by simp [dangerousItems]))
    have hgt : '>' ∉ y := not_mem_of_containsSubstr_false (hall _ (by simp [dangerousItems]))
    have hq : '"' ∉ y := not_mem_of_containsSubstr_false (hall _ (by simp [dangerousItems]))
    have hap : aposC ∉ y := not_mem_of_containsSubstr_false (hall _ (by simp [dangerousItems]))
    have ham : '&' ∉ y := not_mem_of_containsSubstr_false (hall _ (by simp [dangerousItems]))
    rw [pyHtmlEscape_eq_self ham hlt hgt hq hap]
    rw [show scriptSub y = y from scriptSubF_eq_self _ _ hscr]
    rw [show eventSub y = y from eventSubF_eq_self _ _ hev]
    exact hstrip

/-- C2 (amended, witness): a concrete clean input on which the amended
idempotence theorem applies. -/
theorem sanitize_input_idempotent_on_clean_witness :
    sanitizedClean (sanitize_input ("hello world".toList)) = true ∧
    sanitize_input (sanitize_input ("hello world".toList)) =
      sanitize_input ("hello world".toList) :=
  ⟨by decide, sanitize_input_idempotent_on_clean ("hello world".toList) (by decide)⟩

/-- C8 (counterexample): the name regex class is `[a-zA-Z\s\'-]` and `\s`
accepts every whitespace character, not only the space: `"a\tb"` contains a
tab, passes `validate_name`, yet is not made of letters, spaces, hyphens
and apostrophes only. -/
theorem validate_name_cex :
    validate_name ("a\tb".toList) = true ∧
    ¬ (∀ c ∈ ("a\tb".toList),
        isAlphaAsc c = true ∨ c = ' ' ∨ c = '-' ∨ c = aposC) := by
  constructor
  · decide
  · decide

/-- C8 (amended): `validate_name` returns true exactly for the strings of
length between 2 and 50 inclusive consisting only of ASCII letters,
whitespace characters (the regex class `\s`, which includes tab and
newline, not just the space), hyphens, and apostrophes. -/
theorem validate_name_spec (s : List Char) :
    validate_name s = true ↔
      ((∀ c ∈ s, isAlphaAsc c = true ∨ isPySpace c = true ∨ c = '-' ∨ c = aposC) ∧
        2 ≤ s.length ∧ s.length ≤ 50) := by
  have hchar : ∀ c : Char, (nameChar c = true) ↔
      (isAlphaAsc c = true ∨ isPySpace c = true ∨ c = '-' ∨ c = aposC) := by
    intro c
    simp only [nameChar, Bool.or_eq_true, beq_iff_eq]
    tauto
  unfold validate_name nameRegexMatch
  by_cases hs : s.isEmpty
  · have hnil : s = [] := by
      cases s with
      | nil => rfl
      | cons a t => simp at hs
    subst hnil
    simp
  · rw [if_neg (by simp [hs])]
    by_cases hall : s.all nameChar
    · rw [if_neg (by simp [hs, hall])]
      by_cases hlen : s.length < 2 || 50 < s.length
      · rw [if_pos hlen]
        simp only [Bool.or_eq_true, decide_eq_true_eq] at hlen
        constructor
        · intro h
          exact absurd h (by simp)
        · intro h
          omega
      · rw [if_neg hlen]
        simp only [Bool.or_eq_true, decide_eq_true_eq, not_or, not_lt] at hlen
        constructor
        · intro _
          refine ⟨?_, hlen.1, hlen.2⟩
          intro c hc
          exact (hchar c).mp (List.all_eq_true.mp hall c hc)
        · intro _
          rfl
    · rw [if_pos (by simp [hs, hall])]
      constructor
      · intro h
        exact absurd h (by simp)
      · rintro ⟨hfor, h2, h50⟩
        exfalso
        apply hall
        rw [List.all_eq_true]
        intro c hc
        exact (hchar c).mpr (hfor c hc)

/-- C8 (amended, witness): the amended characterization applied to a
concrete accepted name. -/
theorem validate_name_spec_witness : validate_name ("Jo".toList) = true :=
  (validate_name_spec ("Jo".toList)).mpr (by decide)

theorem toNat_ofNat_small (n : Nat) (h : n < 55296) : (Char.ofNat n).toNat = n := by
  unfold Char.ofNat
  rw [dif_pos (Or.inl h)]
  rfl

/-- Characters that can occur in a string accepted by the email shape regex:
a local-part character, the `@`, a domain character, or the single trailing
newline tolerated by `$`. -/
def emailOkChar (c : Char) : Bool :=
  localChar c || c == '@' || domainChar c || c == '\n'

theorem emailOkChar_toLower_ne {c : Char} (h : emailOkChar c = true) :
    pyToLower c ≠ ':' ∧ pyToLower c ≠ '<' ∧ pyToLower c ≠ '(' := by
  unfold pyToLower
  split
  · next hcond =>
    simp only [Bool.and_eq_true, decide_eq_true_eq] at hcond
    have hv : (Char.ofNat (c.toNat + 32)).toNat = c.toNat + 32 :=
      toNat_ofNat_small _ (by omega)
    refine ⟨?_, ?_, ?_⟩ <;> intro he
    · have h1 := congrArg Char.toNat he
      rw [hv] at h1
      have h2 : (':' : Char).toNat = 58 := by decide
      rw [h2] at h1
      omega
    · have h1 := congrArg Char.toNat he
      rw [hv] at h1
      have h2 : ('<' : Char).toNat = 60 := by decide
      rw [h2] at h1
      omega
    · have h1 := congrArg Char.toNat he
      rw [hv] at h1
      have h2 : ('(' : Char).toNat = 40 := by decide
      rw [h2] at h1
      omega
  · refine ⟨?_, ?_, ?_⟩ <;> intro he <;> rw [he] at h <;> exact absurd h (by decide)

theorem splitFirst_eq {a : Char} :
    ∀ {s l r : List Char}, splitFirst s a = some (l, r) → s = l ++ a :: r := by
  intro s
  induction s with
  | nil => intro l r h; simp [splitFirst] at h
  | cons c t ih =>
    intro l r h
    rw [splitFirst] at h
    split at h
    · next hca =>
      simp only [Option.some.injEq, Prod.mk.injEq] at h
      obtain ⟨h1, h2⟩ := h
      subst h1; subst h2; subst hca
      rfl
    · next hca =>
      cases hs : splitFirst t a with
      | none => rw [hs] at h; simp at h
      | some p =>
        obtain ⟨l2, r2⟩ := p
        rw [hs] at h
        simp only [Option.map_some', Option.some.injEq, Prod.mk.injEq] at h
        obtain ⟨h1, h2⟩ := h
        subst h2
        rw [← h1]
        rw [ih hs]
        rfl

theorem emailCore_chars {s : List Char} (h : emailCore s = true) :
    ∀ c ∈ s, localChar c = true ∨ c = '@' ∨ domainChar c = true := by
  unfold emailCore at h
  cases hsf : splitFirst s '@' with
  | none => rw [hsf] at h; simp at h
  | some p =>
    obtain ⟨l, r⟩ := p
    rw [hsf] at h
    simp only [Bool.and_eq_true] at h
    obtain ⟨⟨hne, hall⟩, hdom⟩ := h
    have hdomAll : r.all domainChar = true := by
      unfold domainPartOk at hdom
      simp only [Bool.and_eq_true] at hdom
      exact hdom.1
    have hs := splitFirst_eq hsf
    intro c hc
    rw [hs] at hc
    rcases List.mem_append.mp hc with hc | hc
    · exact Or.inl (List.all_eq_true.mp hall c hc)
    · rcases List.mem_cons.mp hc with hc | hc
      · exact Or.inr (Or.inl hc)
      · exact Or.inr (Or.inr (List.all_eq_true.mp hdomAll c hc))

theorem emailShape_chars {s : List Char} (h : emailRegexMatch s = true) :
    ∀ c ∈ s, emailOkChar c = true := by
  unfold emailRegexMatch at h
  simp only [Bool.or_eq_true] at h
  rcases h with h | h
  · intro c hc
    rcases emailCore_chars h c hc with h1 | h1 | h1 <;>
      simp [emailOkChar, h1]
  · cases hg : s.getLast? with
    | none => rw [hg] at h; simp at h
    | some d =>
      rw [hg] at h
      simp only [Bool.and_eq_true, beq_iff_eq] at h
      obtain ⟨hd, hcore⟩ := h
      have hsne : s ≠ [] := by
        intro h0
        rw [h0] at hg
        simp at hg
      have hsplit : s.dropLast ++ [s.getLast hsne] = s :=
        List.dropLast_append_getLast hsne
      have hdl : s.getLast hsne = d := by
        rw [List.getLast?_eq_getLast s hsne] at hg
        exact Option.some.inj hg
      intro c hc
      rw [← hsplit] at hc
      rcases List.mem_append.mp hc with hc | hc
      · rcases emailCore_chars hcore c hc with h1 | h1 | h1 <;>
          simp [emailOkChar, h1]
      · have hcd : c = d := by
          rcases List.mem_singleton.mp hc with h1
          rw [h1, hdl]
        rw [hcd, hd]
        decide

theorem ciContainsSubstr_false_of_okChars (b : Char) {s p : List Char}
    (hall : ∀ c ∈ s, emailOkChar c = true) (hb : b ∈ p)
    (hbad : ∀ c, emailOkChar c = true → pyToLower c ≠ b) :
    ciContainsSubstr s p = false := by
  unfold ciContainsSubstr
  cases hcs : containsSubstr (s.map pyToLower) p
  · rfl
  · exfalso
    have hbm := mem_of_containsSubstr hcs b hb
    obtain ⟨c, hcmem, hceq⟩ := List.mem_map.mp hbm
    exact hbad c (hall c hcmem) hceq

/-- C9: `validate_email` is equivalent to the shape-regex test alone: every
string accepted by the shape regex is made of characters that contain
neither `:` nor `<` nor `(` (even after lowercasing), so none of the six
suspicious patterns can occur in it and the secondary rejection loop never
rejects an input that passed the shape check. -/
theorem validate_email_eq_shape (s : List Char) :
    validate_email s = emailRegexMatch s ∧
    (emailRegexMatch s = true → ':' ∉ s ∧ '<' ∉ s ∧ '(' ∉ s) := by
  constructor
  · by_cases hm : emailRegexMatch s = true
    · rw [hm]
      unfold validate_email
      have hsne : s.isEmpty = false := by
        cases s with
        | nil => exact absurd hm (by decide)
        | cons a t => rfl
      rw [if_neg (by simp [hsne]), if_neg (by simp [hm])]
      have hall := emailShape_chars hm
      have hb1 : ∀ c, emailOkChar c = true → pyToLower c ≠ ':' :=
        fun c hc => (emailOkChar_toLower_ne hc).1
      have hb2 : ∀ c, emailOkChar c = true → pyToLower c ≠ '<' :=
        fun c hc => (emailOkChar_toLower_ne hc).2.1
      have hb3 : ∀ c, emailOkChar c = true → pyToLower c ≠ '(' :=
        fun c hc => (emailOkChar_toLower_ne hc).2.2
      have hsusp : emailSuspPatterns.any (fun p => ciContainsSubstr s p) = false := by
        simp only [emailSuspPatterns, List.any_cons, List.any_nil,
          Bool.or_eq_false_iff]
        refine ⟨?_, ?_, ?_, ?_, ?_, ?_, trivial⟩
        · exact ciContainsSubstr_false_of_okChars ':' hall (by decide) hb1
        · exact ciContainsSubstr_false_of_okChars ':' hall (by decide) hb1
        · exact ciContainsSubstr_false_of_okChars ':' hall (by decide) hb1
        · exact ciContainsSubstr_false_of_okChars '<' hall (by decide) hb2
        · exact ciContainsSubstr_false_of_okChars '(' hall (by decide) hb3
        · exact ciContainsSubstr_false_of_okChars '(' hall (by decide) hb3
      rw [if_neg (by simp [hsusp])]
    · have hm2 : emailRegexMatch s = false := by
        cases hmm : emailRegexMatch s
        · rfl
        · exact absurd hmm hm
      rw [hm2]
      unfold validate_email
      by_cases hs : s.isEmpty
      · rw [if_pos hs]
      · rw [if_neg hs, if_pos (by simp [hm2])]
  · intro hm
    have hall := emailShape_chars hm
    refine ⟨?_, ?_, ?_⟩ <;> intro hmem
    · have hh := hall _ hmem
      exact absurd hh (by decide)
    · have hh := hall _ hmem
      exact absurd hh (by decide)
    · have hh := hall _ hmem
      exact absurd hh (by decide)

/-- C9 (witness instance): the equivalence evaluated on a concrete
address. -/
theorem validate_email_eq_shape_witness :
    validate_email ("user@example.com".toList) =
      emailRegexMatch ("user@example.com".toList) ∧
    (emailRegexMatch ("user@example.com".toList) = true →
      ':' ∉ ("user@example.com".toList) ∧ '<' ∉ ("user@example.com".toList) ∧
        '(' ∉ ("user@example.com".toList)) :=
  validate_email_eq_shape ("user@example.com".toList)

theorem alookup_aset_self {α : Type} (m : List (List Char × α)) (k : List Char)
    (v : α) : alookup (aset m k v) k = some v := by
  induction m with
  | nil => simp [aset, alookup]
  | cons kv t ih =>
    obtain ⟨k1, v1⟩ := kv
    rw [aset]
    by_cases hk : k1 = k
    · rw [if_pos hk, alookup, if_pos rfl]
    · rw [if_neg hk, alookup, if_neg hk]
      exact ih

theorem alookup_eq_none_of_not_mem {α : Type} :
    ∀ (m : List (List Char × α)) (k : List Char),
      k ∉ m.map Prod.fst → alookup m k = none := by
  intro m
  induction m with
  | nil => intro k _; rfl
  | cons kv t ih =>
    intro k hk
    obtain ⟨k1, v1⟩ := kv
    simp only [List.map_cons, List.mem_cons] at hk
    push_neg at hk
    rw [alookup, if_neg (fun he => hk.1 he.symm)]
    exact ih k hk.2

theorem alookup_aremove_self {α : Type} :
    ∀ (m : List (List Char × α)) (k : List Char),
      (m.map Prod.fst).Nodup → alookup (aremove m k) k = none := by
  intro m
  induction m with
  | nil => intro k _; rfl
  | cons kv t ih =>
    obtain ⟨k1, v1⟩ := kv
    intro k hnd
    simp only [List.map_cons, List.nodup_cons] at hnd
    rw [aremove]
    by_cases hk : k1 = k
    · rw [if_pos hk]
      subst hk
      exact alookup_eq_none_of_not_mem t k1 hnd.1
    · rw [if_neg hk, alookup, if_neg hk]
      exact ih k hnd.2

theorem validate_csrf_token_eq (m : List (List Char × CsrfRec)) (sid : List Char)
    (tok : Option (List Char)) (now : Int) (r : CsrfRec)
    (h : alookup m sid = some r) :
    validate_csrf_token m sid tok now =
      if some r.token ≠ tok then (false, m)
      else if 3600 < now - r.timestamp then (false, aremove m sid)
      else (true, m) := by
  unfold validate_csrf_token
  rw [h]

theorem validate_csrf_token_none (m : List (List Char × CsrfRec)) (sid : List Char)
    (tok : Option (List Char)) (now : Int) (h : alookup m sid = none) :
    validate_csrf_token m sid tok now = (false, m) := by
  unfold validate_csrf_token
  rw [h]

/-- C3 (amended): `validate_csrf_token` returns false exactly when no record
exists for the session, the stored token differs from the presented one, or
more than 3600 seconds have elapsed since issuance.  The record is deleted
only in the expired case; a mismatch rejection leaves the store unchanged.
Under the dictionary invariant (no duplicate keys), removal really erases
the record. -/
theorem validate_csrf_token_spec (m : List (List Char × CsrfRec))
    (sid : List Char) (tok : Option (List Char)) (now : Int) :
    ((validate_csrf_token m sid tok now).1 = false ↔
      (alookup m sid = none ∨
        ∃ r, alookup m sid = some r ∧
          (some r.token ≠ tok ∨ 3600 < now - r.timestamp))) ∧
    (∀ r, alookup m sid = some r → some r.token = tok → 3600 < now - r.timestamp →
      (validate_csrf_token m sid tok now).2 = aremove m sid) ∧
    (∀ r, alookup m sid = some r → some r.token ≠ tok →
      (validate_csrf_token m sid tok now).2 = m) ∧
    ((m.map Prod.fst).Nodup → alookup (aremove m sid) sid = none) := by
  cases hl : alookup m sid with
  | none =>
    rw [validate_csrf_token_none m sid tok now hl]
    refine ⟨by simp [hl], ?_, ?_, ?_⟩
    · intro r hr
      exact absurd hr (by simp)
    · intro r hr
      exact absurd hr (by simp)
    · intro hnd
      exact alookup_aremove_self m sid hnd
  | some r =>
    rw [validate_csrf_token_eq m sid tok now r hl]
    by_cases hne : some r.token = tok
    · rw [if_neg (not_not_intro hne)]
      by_cases hexp : 3600 < now - r.timestamp
      · rw [if_pos hexp]
        refine ⟨?_, ?_, ?_, ?_⟩
        · constructor
          · intro _
            exact Or.inr ⟨r, rfl, Or.inr hexp⟩
          · intro _
            rfl
        · intro r2 _ _ _
          rfl
        · intro r2 hr2 hmis
          obtain rfl : r2 = r := (Option.some.inj hr2).symm
          exact absurd hne hmis
        · intro hnd
          exact alookup_aremove_self m sid hnd
      · rw [if_neg hexp]
        refine ⟨?_, ?_, ?_, ?_⟩
        · constructor
          · intro h
            exact absurd h (by simp)
          · rintro (h | ⟨r2, hr2, h2⟩)
            · exact absurd h (by simp)
            · obtain rfl : r2 = r := (Option.some.inj hr2).symm
              rcases h2 with h2 | h2
              · exact absurd hne h2
              · exact absurd h2 hexp
        · intro r2 hr2 _ hexp2
          obtain rfl : r2 = r := (Option.some.inj hr2).symm
          exact absurd hexp2 hexp
        · intro r2 hr2 hmis
          obtain rfl : r2 = r := (Option.some.inj hr2).symm
          exact absurd hne hmis
        · intro hnd
          exact alookup_aremove_self m sid hnd
    · rw [if_pos hne]
      refine ⟨?_, ?_, ?_, ?_⟩
      · constructor
        · intro _
          exact Or.inr ⟨r, rfl, Or.inl hne⟩
        · intro _
          rfl
      · intro r2 hr2 hmatch _
        obtain rfl : r2 = r := (Option.some.inj hr2).symm
        exact absurd hmatch hne
      · intro r2 _ _
        rfl
      · intro hnd
        exact alookup_aremove_self m sid hnd

/-- C3 (amended, witness): the characterization evaluated on a concrete
store, presented token and clock. -/
theorem validate_csrf_token_spec_witness :
    (validate_csrf_token [("s1".toList, ⟨"tokA".toList, 0⟩)] ("s1".toList)
        (some ("tokA".toList)) 4000).2 =
      aremove [("s1".toList, ⟨"tokA".toList, 0⟩)] ("s1".toList) :=
  (validate_csrf_token_spec [("s1".toList, ⟨"tokA".toList, 0⟩)] ("s1".toList)
      (some ("tokA".toList)) 4000).2.1 ⟨"tokA".toList, 0⟩ (by decide) (by decide)
    (by norm_num)

/-- C3 (counterexample): the claim says a mismatch rejection removes the
record; in the code only the expired branch deletes.  A wrong token is
rejected but the record survives untouched. -/
theorem validate_csrf_token_mismatch_cex :
    (validate_csrf_token [("s1".toList, ⟨"tokA".toList, 0⟩)] ("s1".toList)
        (some ("bad".toList)) 0).1 = false ∧
    (validate_csrf_token [("s1".toList, ⟨"tokA".toList, 0⟩)] ("s1".toList)
        (some ("bad".toList)) 0).2 = [("s1".toList, ⟨"tokA".toList, 0⟩)] ∧
    alookup ((validate_csrf_token [("s1".toList, ⟨"tokA".toList, 0⟩)] ("s1".toList)
        (some ("bad".toList)) 0).2) ("s1".toList) ≠ none := by
  exact ⟨by decide, by decide, by decide⟩

/-- C5: a token freshly stored by `generate_csrf_token` overwrites any prior
record for the session; it validates at every time at most 3600 seconds
after issuance, fails strictly after 3600 seconds, and no other presented
token validates for that session. -/
theorem generate_validate_csrf (m : List (List Char × CsrfRec))
    (sid tok : List Char) (now : Int) :
    alookup (generate_csrf_token m sid tok now) sid = some ⟨tok, now⟩ ∧
    (∀ t2 : Int, t2 - now ≤ 3600 →
      (validate_csrf_token (generate_csrf_token m sid tok now) sid
        (some tok) t2).1 = true) ∧
    (∀ t2 : Int, 3600 < t2 - now →
      (validate_csrf_token (generate_csrf_token m sid tok now) sid
        (some tok) t2).1 = false) ∧
    (∀ (p : Option (List Char)) (t2 : Int), p ≠ some tok →
      (validate_csrf_token (generate_csrf_token m sid tok now) sid p t2).1 = false) := by
  have hset : alookup (generate_csrf_token m sid tok now) sid = some ⟨tok, now⟩ :=
    alookup_aset_self m sid _
  refine ⟨hset, ?_, ?_, ?_⟩
  · intro t2 ht
    rw [validate_csrf_token_eq _ _ _ _ _ hset]
    rw [if_neg (not_not_intro rfl), if_neg (show ¬(3600 < t2 - now) by omega)]
  · intro t2 ht
    rw [validate_csrf_token_eq _ _ _ _ _ hset]
    rw [if_neg (not_not_intro rfl), if_pos (show 3600 < t2 - now from ht)]
  · intro p t2 hp
    rw [validate_csrf_token_eq _ _ _ _ _ hset]
    rw [if_pos (fun he => hp he.symm)]

/-- C5 (witness): the 3599-second and 3601-second boundary instances from
the specification, and a mismatching token. -/
theorem generate_validate_csrf_witness :
    (validate_csrf_token (generate_csrf_token [] ("s".toList) ("T".toList) 0)
      ("s".toList) (some ("T".toList)) 3599).1 = true ∧
    (validate_csrf_token (generate_csrf_token [] ("s".toList) ("T".toList) 0)
      ("s".toList) (some ("T".toList)) 3601).1 = false ∧
    (validate_csrf_token (generate_csrf_token [] ("s".toList) ("T".toList) 0)
      ("s".toList) (some ("X".toList)) 10).1 = false :=
  ⟨(generate_validate_csrf [] ("s".toList) ("T".toList) 0).2.1 3599 (by norm_num),
   (generate_validate_csrf [] ("s".toList) ("T".toList) 0).2.2.1 3601 (by norm_num),
   (generate_validate_csrf [] ("s".toList) ("T".toList) 0).2.2.2
     (some ("X".toList)) 10 (by decide)⟩

theorem rate_limit_deny (now : Int) (m : List (List Char × List Int))
    (ip : List Char) (l : Nat) (w : Int)
    (h : l ≤ (((alookup m ip).getD []).filter (fun t => decide (now - t < w))).length) :
    rate_limit now m ip l w =
      (false, aset m ip (((alookup m ip).getD []).filter (fun t => decide (now - t < w)))) := by
  unfold rate_limit
  exact if_pos h

theorem rate_limit_allow (now : Int) (m : List (List Char × List Int))
    (ip : List Char) (l : Nat) (w : Int)
    (h : ¬ l ≤ (((alookup m ip).getD []).filter (fun t => decide (now - t < w))).length) :
    rate_limit now m ip l w =
      (true, aset m ip ((((alookup m ip).getD []).filter (fun t => decide (now - t < w))) ++ [now])) := by
  unfold rate_limit
  exact if_neg h

/-- Successive `rate_limit` calls for a single identity at the given times,
threading the store; returns the list of admit/deny decisions and the final
store. -/
def runSeq (ip : List Char) (limit : Nat) (window : Int) :
    List Int → List (List Char × List Int) →
      List Bool × List (List Char × List Int)
  | [], m => ([], m)
  | t :: ts, m =>
    match rate_limit t m ip limit window with
    | (b, m2) =>
      match runSeq ip limit window ts m2 with
      | (bs, m3) => (b :: bs, m3)

theorem runSeq_admits (ip : List Char) (l : Nat) (w lo hi : Int) (hw : hi - lo < w) :
    ∀ (ts : List Int) (m : List (List Char × List Int)) (pre : List Int),
      (alookup m ip).getD [] = pre →
      (∀ x ∈ pre ++ ts, lo ≤ x ∧ x ≤ hi) →
      pre.length + ts.length ≤ l →
      (runSeq ip l w ts m).1 = List.replicate ts.length true ∧
        (alookup (runSeq ip l w ts m).2 ip).getD [] = pre ++ ts := by
  intro ts
  induction ts with
  | nil =>
    intro m pre hpre hb hl
    refine ⟨rfl, ?_⟩
    rw [runSeq]
    simpa using hpre
  | cons t ts ih =>
    intro m pre hpre hb hl
    have hfilter : pre.filter (fun x => decide (t - x < w)) = pre := by
      rw [List.filter_eq_self]
      intro x hx
      have hxb := hb x (List.mem_append.mpr (Or.inl hx))
      have htb := hb t (by simp)
      simp only [decide_eq_true_eq]
      omega
    have hlenp : pre.length < l := by
      simp only [List.length_cons] at hl
      omega
    have hnl : ¬ l ≤ (((alookup m ip).getD []).filter (fun x => decide (t - x < w))).length := by
      rw [hpre, hfilter]
      omega
    have hstep := rate_limit_allow t m ip l w hnl
    rw [hpre, hfilter] at hstep
    have hih := ih (aset m ip (pre ++ [t])) (pre ++ [t])
      (by rw [alookup_aset_self]; rfl)
      (by
        intro x hx
        apply hb
        rw [List.append_cons]
        exact hx)
      (by
        simp only [List.length_cons] at hl
        simp only [List.length_append, List.length_singleton]
        omega)
    rw [runSeq, hstep]
    refine ⟨?_, ?_⟩
    · show true :: (runSeq ip l w ts (aset m ip (pre ++ [t]))).1 =
        List.replicate (t :: ts).length true
      rw [hih.1]
      rfl
    · show (alookup (runSeq ip l w ts (aset m ip (pre ++ [t]))).2 ip).getD [] =
        pre ++ t :: ts
      rw [hih.2]
      simp

/-- C4: the per-call contract of `rate_limit` — each call first discards the
identity's recorded timestamps older than `window`; with at least `limit`
timestamps left it denies without recording, otherwise it records the
current time and admits — and its consequences: starting from an empty
history, `limit` requests inside one window are all admitted, one more
request inside the same window is denied, and a request issued once the
window has elapsed for every recorded timestamp is admitted again. -/
theorem rate_limit_c4 (ip : List Char) (l : Nat) (w lo hi : Int)
    (m0 : List (List Char × List Int)) (times : List Int) (tnext tresume : Int)
    (hfresh : (alookup m0 ip).getD [] = [])
    (hb : ∀ x ∈ times, lo ≤ x ∧ x ≤ hi)
    (hbn : lo ≤ tnext ∧ tnext ≤ hi)
    (hw : hi - lo < w)
    (hlen : times.length = l)
    (hpos : 0 < l)
    (hres : ∀ x ∈ times, w ≤ tresume - x) :
    (∀ (now : Int) (m : List (List Char × List Int)),
      ((rate_limit now m ip l w).1 = false ↔
        l ≤ (((alookup m ip).getD []).filter (fun x => decide (now - x < w))).length) ∧
      (alookup (rate_limit now m ip l w).2 ip).getD [] =
        (if l ≤ (((alookup m ip).getD []).filter (fun x => decide (now - x < w))).length
         then ((alookup m ip).getD []).filter (fun x => decide (now - x < w))
         else ((alookup m ip).getD []).filter (fun x => decide (now - x < w)) ++ [now])) ∧
    (∀ (ts2 : List Int) (m2 : List (List Char × List Int)),
      (alookup m2 ip).getD [] = [] → (∀ x ∈ ts2, lo ≤ x ∧ x ≤ hi) → ts2.length ≤ l →
      (runSeq ip l w ts2 m2).1 = List.replicate ts2.length true) ∧
    (runSeq ip l w times m0).1 = List.replicate l true ∧
    (rate_limit tnext (runSeq ip l w times m0).2 ip l w).1 = false ∧
    (rate_limit tresume
      (rate_limit tnext (runSeq ip l w times m0).2 ip l w).2 ip l w).1 = true := by
  have hrun := runSeq_admits ip l w lo hi hw times m0 [] hfresh (by simpa using hb)
    (by simpa using Nat.le_of_eq hlen)
  have hlook : (alookup (runSeq ip l w times m0).2 ip).getD [] = times := by
    simpa using hrun.2
  have hfilter2 : times.filter (fun x => decide (tnext - x < w)) = times := by
    rw [List.filter_eq_self]
    intro x hx
    have hxb := hb x hx
    simp only [decide_eq_true_eq]
    omega
  have hdeny := rate_limit_deny tnext (runSeq ip l w times m0).2 ip l w
    (by rw [hlook, hfilter2, hlen])
  have hfilter3 : times.filter (fun x => decide (tresume - x < w)) = [] := by
    rw [List.filter_eq_nil_iff]
    intro x hx
    have := hres x hx
    simp only [decide_eq_true_eq]
    omega
  refine ⟨?_, ?_, ?_, ?_, ?_⟩
  · intro now m
    by_cases hc : l ≤ (((alookup m ip).getD []).filter (fun x => decide (now - x < w))).length
    · rw [rate_limit_deny now m ip l w hc, if_pos hc]
      have := alookup_aset_self m ip
        (((alookup m ip).getD []).filter (fun x => decide (now - x < w)))
      refine ⟨by simp [hc], ?_⟩
      show (alookup (aset m ip _) ip).getD [] = _
      rw [this]
      rfl
    · rw [rate_limit_allow now m ip l w hc, if_neg hc]
      have := alookup_aset_self m ip
        ((((alookup m ip).getD []).filter (fun x => decide (now - x < w))) ++ [now])
      refine ⟨by simp [hc], ?_⟩
      show (alookup (aset m ip _) ip).getD [] = _
      rw [this]
      rfl
  · intro ts2 m2 hm2 hb2 hl2
    exact (runSeq_admits ip l w lo hi hw ts2 m2 [] hm2 (by simpa using hb2)
      (by simpa using hl2)).1
  · rw [hrun.1, hlen]
  · rw [hdeny]
  · rw [hdeny]
    show (rate_limit tresume
      (aset (runSeq ip l w times m0).2 ip
        (((alookup (runSeq ip l w times m0).2 ip).getD []).filter
          (fun x => decide (tnext - x < w)))) ip l w).1 = true
    have hlook2 : (alookup (aset (runSeq ip l w times m0).2 ip
        (((alookup (runSeq ip l w times m0).2 ip).getD []).filter
          (fun x => decide (tnext - x < w)))) ip).getD [] = times := by
      rw [alookup_aset_self]
      show ((alookup (runSeq ip l w times m0).2 ip).getD []).filter
        (fun x => decide (tnext - x < w)) = times
      rw [hlook, hfilter2]
    have hadm := rate_limit_allow tresume
      (aset (runSeq ip l w times m0).2 ip
        (((alookup (runSeq ip l w times m0).2 ip).getD []).filter
          (fun x => decide (tnext - x < w)))) ip l w
      (by rw [hlook2, hfilter3]; simp only [List.length_nil]; omega)
    rw [hadm]

/-- C4 (witness): limit 2 within a 60-second window — requests at times 0
and 1 admitted, a third at time 2 denied, a request at time 100 admitted
again. -/
theorem rate_limit_c4_witness :
    (runSeq ("c".toList) 2 60 [0, 1] []).1 = List.replicate 2 true ∧
    (rate_limit 2 (runSeq ("c".toList) 2 60 [0, 1] []).2 ("c".toList) 2 60).1 = false ∧
    (rate_limit 100
      (rate_limit 2 (runSeq ("c".toList) 2 60 [0, 1] []).2 ("c".toList) 2 60).2
      ("c".toList) 2 60).1 = true := by
  have h := rate_limit_c4 ("c".toList) 2 60 0 2 [] [0, 1] 2 100
    (by rfl) (by decide) (by decide) (by decide) (by decide) (by decide) (by decide)
  exact ⟨h.2.2.1, h.2.2.2.1, h.2.2.2.2⟩

theorem mem_setAdd (l : List (List Char)) (x : List Char) : x ∈ setAdd l x := by
  unfold setAdd
  split
  · next h => exact h
  · exact List.mem_cons_self x l

/-- C1: the gatekeeper answers a blacklisted identity with 403 and leaves
the state untouched; past the blacklist, a request denied by the broad
20-per-60-seconds rate limit is blocked with 429; a request whose
serialized content matches a suspicious pattern has its identity added to
the block list and is blocked with 400; and afterwards every request from
that identity is blocked with 403 regardless of its content. -/
theorem security_checks_c1 (now : Int) (st : SecState) (req : Request) :
    (req.remote_addr ∈ st.blocked_ips →
      security_checks now st req = (.blockResp 403, st)) ∧
    (req.remote_addr ∉ st.blocked_ips →
      (rate_limit now st.rate_limit_data req.remote_addr 20 60).1 = false →
      (security_checks now st req).1 = .blockResp 429) ∧
    (req.remote_addr ∉ st.blocked_ips →
      (rate_limit now st.rate_limit_data req.remote_addr 20 60).1 = true →
      is_suspicious_request req.serialized = true →
      (security_checks now st req =
        (.blockResp 400,
          { st with
            rate_limit_data := (rate_limit now st.rate_limit_data req.remote_addr 20 60).2,
            blocked_ips := setAdd st.blocked_ips req.remote_addr }) ∧
       req.remote_addr ∈ setAdd st.blocked_ips req.remote_addr ∧
       (∀ (now2 : Int) (req2 : Request), req2.remote_addr = req.remote_addr →
         security_checks now2
           { st with
             rate_limit_data := (rate_limit now st.rate_limit_data req.remote_addr 20 60).2,
             blocked_ips := setAdd st.blocked_ips req.remote_addr } req2 =
           (.blockResp 403,
             { st with
               rate_limit_data := (rate_limit now st.rate_limit_data req.remote_addr 20 60).2,
               blocked_ips := setAdd st.blocked_ips req.remote_addr })))) := by
  refine ⟨?_, ?_, ?_⟩
  · intro h
    unfold security_checks
    exact if_pos h
  · intro h1 h2
    unfold security_checks
    rw [if_neg h1]
    cases hrl : rate_limit now st.rate_limit_data req.remote_addr 20 60 with
    | mk ok rd =>
      rw [hrl] at h2
      simp only at h2
      subst h2
      rfl
  · intro h1 h2 h3
    refine ⟨?_, mem_setAdd _ _, ?_⟩
    · unfold security_checks
      rw [if_neg h1]
      cases hrl : rate_limit now st.rate_limit_data req.remote_addr 20 60 with
      | mk ok rd =>
        rw [hrl] at h2
        simp only at h2
        subst h2
        show (if is_suspicious_request req.serialized then _ else _) = _
        rw [if_pos h3]
    · intro now2 req2 hreq
      unfold security_checks
      rw [if_pos (by rw [hreq]; exact mem_setAdd _ _)]

/-- C1 (witness): the three gatekeeper behaviours on concrete states — a
blacklisted identity gets 403; a saturated rate window gets 429; a request
whose body contains a script tag gets 400, the identity lands on the block
list, and a clean follow-up request from it gets 403. -/
theorem security_checks_c1_witness :
    security_checks 0 ⟨[], [], ["1.2.3.4".toList]⟩ ⟨"1.2.3.4".toList, "hi".toList⟩ =
      (.blockResp 403, ⟨[], [], ["1.2.3.4".toList]⟩) ∧
    (security_checks 5 ⟨[], [("1.2.3.4".toList, List.replicate 20 0)], []⟩
      ⟨"1.2.3.4".toList, "hi".toList⟩).1 = .blockResp 429 ∧
    (security_checks 5 ⟨[], [], []⟩
        ⟨"1.2.3.4".toList, "<script>alert(1)</script>".toList⟩ =
      (.blockResp 400,
        { csrf_tokens := [],
          rate_limit_data :=
            (rate_limit 5 [] ("1.2.3.4".toList) 20 60).2,
          blocked_ips := setAdd [] ("1.2.3.4".toList) }) ∧
      "1.2.3.4".toList ∈ setAdd [] ("1.2.3.4".toList) ∧
      (∀ (now2 : Int) (req2 : Request), req2.remote_addr = "1.2.3.4".toList →
        security_checks now2
          { csrf_tokens := [],
            rate_limit_data := (rate_limit 5 [] ("1.2.3.4".toList) 20 60).2,
            blocked_ips := setAdd [] ("1.2.3.4".toList) } req2 =
          (.blockResp 403,
            { csrf_tokens := [],
              rate_limit_data := (rate_limit 5 [] ("1.2.3.4".toList) 20 60).2,
              blocked_ips := setAdd [] ("1.2.3.4".toList) }))) :=
  ⟨(security_checks_c1 0 ⟨[], [], ["1.2.3.4".toList]⟩
      ⟨"1.2.3.4".toList, "hi".toList⟩).1 (by decide),
   (security_checks_c1 5 ⟨[], [("1.2.3.4".toList, List.replicate 20 0)], []⟩
      ⟨"1.2.3.4".toList, "hi".toList⟩).2.1 (by decide) (by decide),
   (security_checks_c1 5 ⟨[], [], []⟩
      ⟨"1.2.3.4".toList, "<script>alert(1)</script>".toList⟩).2.2
     (by decide) (by decide) (by decide)⟩

/-- C6: a form submission whose CSRF token fails validation is answered 403
with body error "Invalid request", no field validator or sanitizer is
invoked (the call trace is empty), and this holds uniformly in the
submitted name, email, and year fields. -/
theorem submit_form_c6 (m : List (List Char × CsrfRec)) (sid : List Char)
    (ctok : Option (List Char)) (nameF emailF yearF : List Char) (now : Int)
    (h : (validate_csrf_token m sid ctok now).1 = false) :
    submit_form m sid ctok nameF emailF yearF now =
      ((403, .errorMsg "Invalid request"), [], (validate_csrf_token m sid ctok now).2) := by
  unfold submit_form
  cases hv : validate_csrf_token m sid ctok now with
  | mk ok m2 =>
    rw [hv] at h
    simp only at h
    subst h
    rfl

/-- C6 (witness): an empty token store rejects any presented token; the
handler returns the fixed 403 response with an empty call trace. -/
theorem submit_form_c6_witness :
    submit_form [] ("s".toList) none ("Bob".toList) ("x@y.com".toList)
        ("junior".toList) 0 =
      ((403, .errorMsg "Invalid request"), [],
        (validate_csrf_token [] ("s".toList) none 0).2) :=
  submit_form_c6 [] ("s".toList) none ("Bob".toList) ("x@y.com".toList)
    ("junior".toList) 0 (by decide)

theorem setHeader_get_self (hs : List (String × String)) (k v : String) :
    getHeader (setHeader hs k v) k = some v := by
  unfold setHeader getHeader
  rw [List.find?_cons]
  simp

theorem find_filter_ne (k k2 : String) (h : k2 ≠ k) :
    ∀ hs : List (String × String),
      (hs.filter (fun kv => kv.1 ≠ k)).find? (fun kv => kv.1 == k2) =
        hs.find? (fun kv => kv.1 == k2) := by
  intro hs
  induction hs with
  | nil => rfl
  | cons kv t ih =>
    obtain ⟨k1, v1⟩ := kv
    by_cases h1 : k1 = k
    · rw [List.filter_cons_of_neg (by simp [h1]), ih, List.find?_cons]
      have hne : ((k1, v1).1 == k2) = false := by
        simp only [beq_eq_false_iff_ne, ne_eq]
        intro he
        exact h (h1 ▸ he ▸ rfl)
      rw [hne]
    · rw [List.filter_cons_of_pos (by simp [h1]), List.find?_cons, List.find?_cons]
      cases he : ((k1, v1).1 == k2)
      · rw [ih]
      · rfl

theorem setHeader_get_other (hs : List (String × String)) (k v k2 : String)
    (h : k2 ≠ k) : getHeader (setHeader hs k v) k2 = getHeader hs k2 := by
  unfold setHeader getHeader
  rw [List.find?_cons]
  have hne : ((k, v).1 == k2) = false := by
    simp only [beq_eq_false_iff_ne, ne_eq]
    exact fun he => h he.symm
  rw [hne, find_filter_ne k k2 h hs]

/-- C7: every response that passes through the `add_security_headers`
after-request hook (which Flask applies to every outgoing response, on
every route and for every error status) carries the five fixed security
headers and the enumerated Content-Security-Policy string, whatever the
response looked like before; the status code is left unchanged. -/
theorem add_security_headers_c7 (r : HResponse) :
    getHeader (add_security_headers r).headers "X-Content-Type-Options" =
      some "nosniff" ∧
    getHeader (add_security_headers r).headers "X-Frame-Options" = some "DENY" ∧
    getHeader (add_security_headers r).headers "X-XSS-Protection" =
      some "1; mode=block" ∧
    getHeader (add_security_headers r).headers "Referrer-Policy" =
      some "strict-origin-when-cross-origin" ∧
    getHeader (add_security_headers r).headers "Permissions-Policy" =
      some "geolocation=(), microphone=(), camera=()" ∧
    getHeader (add_security_headers r).headers "Content-Security-Policy" =
      some cspString ∧
    (add_security_headers r).status = r.status := by
  obtain ⟨rs, rh⟩ := r
  refine ⟨?_, ?_, ?_, ?_, ?_, ?_, rfl⟩
  · show getHeader (setHeader (setHeader (setHeader (setHeader (setHeader (setHeader rh
      "X-Content-Type-Options" "nosniff") "X-Frame-Options" "DENY") "X-XSS-Protection"
      "1; mode=block") "Referrer-Policy" "strict-origin-when-cross-origin")
      "Permissions-Policy" "geolocation=(), microphone=(), camera=()")
      "Content-Security-Policy" cspString) "X-Content-Type-Options" = some "nosniff"
    rw [setHeader_get_other _ _ _ _ (by decide), setHeader_get_other _ _ _ _ (by decide),
      setHeader_get_other _ _ _ _ (by decide), setHeader_get_other _ _ _ _ (by decide),
      setHeader_get_other _ _ _ _ (by decide), setHeader_get_self]
  · show getHeader (setHeader (setHeader (setHeader (setHeader (setHeader (setHeader rh
      "X-Content-Type-Options" "nosniff") "X-Frame-Options" "DENY") "X-XSS-Protection"
      "1; mode=block") "Referrer-Policy" "strict-origin-when-cross-origin")
      "Permissions-Policy" "geolocation=(), microphone=(), camera=()")
      "Content-Security-Policy" cspString) "X-Frame-Options" = some "DENY"
    rw [setHeader_get_other _ _ _ _ (by decide), setHeader_get_other _ _ _ _ (by decide),
      setHeader_get_other _ _ _ _ (by decide), setHeader_get_other _ _ _ _ (by decide),
      setHeader_get_self]
  · show getHeader (setHeader (setHeader (setHeader (setHeader (setHeader (setHeader rh
      "X-Content-Type-Options" "nosniff") "X-Frame-Options" "DENY") "X-XSS-Protection"
      "1; mode=block") "Referrer-Policy" "strict-origin-when-cross-origin")
      "Permissions-Policy" "geolocation=(), microphone=(), camera=()")
      "Content-Security-Policy" cspString) "X-XSS-Protection" = some "1; mode=block"
    rw [setHeader_get_other _ _ _ _ (by decide), setHeader_get_other _ _ _ _ (by decide),
      setHeader_get_other _ _ _ _ (by decide), setHeader_get_self]
  · show getHeader (setHeader (setHeader (setHeader (setHeader (setHeader (setHeader rh
      "X-Content-Type-Options" "nosniff") "X-Frame-Options" "DENY") "X-XSS-Protection"
      "1; mode=block") "Referrer-Policy" "strict-origin-when-cross-origin")
      "Permissions-Policy" "geolocation=(), microphone=(), camera=()")
      "Content-Security-Policy" cspString) "Referrer-Policy" =
      some "strict-origin-when-cross-origin"
    rw [setHeader_get_other _ _ _ _ (by decide), setHeader_get_other _ _ _ _ (by decide),
      setHeader_get_self]
  · show getHeader (setHeader (setHeader (setHeader (setHeader (setHeader (setHeader rh
      "X-Content-Type-Options" "nosniff") "X-Frame-Options" "DENY") "X-XSS-Protection"
      "1; mode=block") "Referrer-Policy" "strict-origin-when-cross-origin")
      "Permissions-Policy" "geolocation=(), microphone=(), camera=()")
      "Content-Security-Policy" cspString) "Permissions-Policy" =
      some "geolocation=(), microphone=(), camera=()"
    rw [setHeader_get_other _ _ _ _ (by decide), setHeader_get_self]
  · show getHeader (setHeader (setHeader (setHeader (setHeader (setHeader (setHeader rh
      "X-Content-Type-Options" "nosniff") "X-Frame-Options" "DENY") "X-XSS-Protection"
      "1; mode=block") "Referrer-Policy" "strict-origin-when-cross-origin")
      "Permissions-Policy" "geolocation=(), microphone=(), camera=()")
      "Content-Security-Policy" cspString) "Content-Security-Policy" = some cspString
    rw [setHeader_get_self]

/-- C7 (witness instance): the header guarantee on a concrete response that
starts with a clashing header value. -/
theorem add_security_headers_c7_witness :
    getHeader (add_security_headers ⟨200, [("X-Frame-Options", "ALLOW")]⟩).headers
        "X-Frame-Options" = some "DENY" ∧
    getHeader (add_security_headers ⟨200, [("X-Frame-Options", "ALLOW")]⟩).headers
        "Content-Security-Policy" = some cspString :=
  ⟨(add_security_headers_c7 ⟨200, [("X-Frame-Options", "ALLOW")]⟩).2.1,
   (add_security_headers_c7 ⟨200, [("X-Frame-Options", "ALLOW")]⟩).2.2.2.2.2.1⟩
